import Mathlib

/-!
Verification of the grain-settlement PDF extraction engine (parser.py).

The extractors of parser.py are shallowly embedded over List Char / String,
with Python floats modelled as exact rationals (every numeric literal the
claims mention is an exact decimal, so the ℚ model agrees with the float
computation on all inputs considered).  Each definition mirrors one Python
helper; regular expressions are compiled by hand into deterministic scanners
that reproduce the backtracking behaviour of the specific patterns used.
-/

set_option maxRecDepth 10000

namespace LiqParser

/-! ## Character helpers (Python str semantics) -/

/-- Python whitespace class as used by str.strip and the regex class. -/
def isPySpace (c : Char) : Bool :=
  c == ' ' || c == '\t' || c == '\n' || c == '\r' || c == '\x0b' || c == '\x0c'

/-- Python str.upper restricted to the alphabet of these documents
(ASCII plus the Spanish accented vowels and enye). -/
def pyUpperChar (c : Char) : Char :=
  if c == 'á' then 'Á'
  else if c == 'é' then 'É'
  else if c == 'í' then 'Í'
  else if c == 'ó' then 'Ó'
  else if c == 'ú' then 'Ú'
  else if c == 'ü' then 'Ü'
  else if c == 'ñ' then 'Ñ'
  else c.toUpper

/-- The accent folding performed by norm (NFKD decomposition, removal of
combining marks, uppercasing): each accented letter maps to its base
uppercase letter. -/
def normChar (c : Char) : Char :=
  if c == 'á' || c == 'Á' then 'A'
  else if c == 'é' || c == 'É' then 'E'
  else if c == 'í' || c == 'Í' then 'I'
  else if c == 'ó' || c == 'Ó' then 'O'
  else if c == 'ú' || c == 'Ú' then 'U'
  else if c == 'ü' || c == 'Ü' then 'U'
  else if c == 'ñ' || c == 'Ñ' then 'N'
  else c.toUpper

/-! ## List-of-characters utilities -/

/-- Python str.strip from the left. -/
def lstrip (l : List Char) : List Char := l.dropWhile isPySpace

/-- Python str.strip from the right. -/
def rstrip (l : List Char) : List Char := (l.reverse.dropWhile isPySpace).reverse

/-- Python str.strip. -/
def stripB (l : List Char) : List Char := rstrip (lstrip l)

/-- Collapse every maximal whitespace run to one blank. -/
def collapseSp : List Char → List Char
  | [] => []
  | [c] => if isPySpace c then [' '] else [c]
  | c :: d :: rest =>
    if isPySpace c then
      if isPySpace d then collapseSp (d :: rest)
      else ' ' :: collapseSp (d :: rest)
    else c :: collapseSp (d :: rest)

/-- The norm helper of parser.py: strip, fold accents, uppercase,
collapse whitespace. -/
def pyNorm (l : List Char) : List Char := collapseSp ((stripB l).map normChar)

/-- String-level wrapper of pyNorm. -/
def pyNormS (s : String) : String := ⟨pyNorm s.data⟩

/-- Character-wise uppercase of a whole text (Python str.upper). -/
def pyUpper (l : List Char) : List Char := l.map pyUpperChar

/-- Boolean prefix test. -/
def isPrefixL : List Char → List Char → Bool
  | [], _ => true
  | _ :: _, [] => false
  | p :: ps, c :: cs => p == c && isPrefixL ps cs

/-- Python str.find: index of the first occurrence of pat, none if absent. -/
def findSubAux (pat : List Char) : Nat → List Char → Option Nat
  | i, [] => if isPrefixL pat [] then some i else none
  | i, c :: t => if isPrefixL pat (c :: t) then some i else findSubAux pat (i + 1) t

/-- Python str.find as an Option. -/
def findSub (pat s : List Char) : Option Nat := findSubAux pat 0 s

/-- Python substring containment (the in operator). -/
def containsSub (pat s : List Char) : Bool := (findSub pat s).isSome

/-- Python str.splitlines restricted to the line breaks that occur in
extracted page text. -/
def splitLinesAux : List Char → List Char → List (List Char)
  | cur, [] => [cur.reverse]
  | cur, '\r' :: '\n' :: rest =>
    cur.reverse :: (if rest.isEmpty then [] else splitLinesAux [] rest)
  | cur, '\r' :: rest =>
    cur.reverse :: (if rest.isEmpty then [] else splitLinesAux [] rest)
  | cur, '\n' :: rest =>
    cur.reverse :: (if rest.isEmpty then [] else splitLinesAux [] rest)
  | cur, c :: rest => splitLinesAux (c :: cur) rest

/-- Python str.splitlines. -/
def splitLines (l : List Char) : List (List Char) :=
  if l.isEmpty then [] else splitLinesAux [] l

/-- Join pieces with a separator (Python str.join). -/
def joinSep (sep : List Char) : List (List Char) → List Char
  | [] => []
  | [x] => x
  | x :: y :: rest => x ++ sep ++ joinSep sep (y :: rest)

/-- Drop leading whitespace (one regex star over the whitespace class). -/
def dropSp (s : List Char) : List Char := s.dropWhile isPySpace

/-! ## Exact model of Python float() on the digit strings produced here -/

/-- Value of a digit string. -/
def digitsToNat (l : List Char) : Nat := l.foldl (fun a c => a * 10 + (c.toNat - 48)) 0

/-- float() on an unsigned candidate: digits with at most one decimal point
and at least one digit; anything else raises, i.e. yields none.  The value
of integer part ip and fractional part fp is ip + fp divided by ten to the
fractional length, built here as one kernel-computable rational. -/
def pyFloatCore (l : List Char) : Option ℚ :=
  let ip := l.takeWhile (fun c => !(c == '.'))
  let rest := l.drop ip.length
  match rest with
  | [] => if !l.isEmpty && l.all Char.isDigit then some (mkRat (digitsToNat l) 1) else none
  | _ :: fp =>
    if fp.contains '.' then none
    else if ip.isEmpty && fp.isEmpty then none
    else if ip.all Char.isDigit && fp.all Char.isDigit then
      some (mkRat (digitsToNat ip * 10 ^ fp.length + digitsToNat fp) (10 ^ fp.length))
    else none

/-- float() with an optional leading minus sign. -/
def pyFloat (l : List Char) : Option ℚ :=
  match l with
  | c :: rest => if c = '-' then (pyFloatCore rest).map (fun q => -q) else pyFloatCore (c :: rest)
  | [] => pyFloatCore []

/-! ## Kernel-computable rational addition, subtraction and halving

The field operations of ℚ do not reduce inside the kernel, so the model
computes sums, differences and halves on crossed numerators; the bridging
lemmas ratAdd_eq, ratSub_eq and ratHalf_eq below prove these agree with
the ordinary operations. -/

/-- Rational addition on crossed numerators. -/
def ratAdd (a b : ℚ) : ℚ := mkRat (a.num * b.den + b.num * a.den) (a.den * b.den)

/-- Rational subtraction on crossed numerators. -/
def ratSub (a b : ℚ) : ℚ := mkRat (a.num * b.den - b.num * a.den) (a.den * b.den)

/-- Half of a rational. -/
def ratHalf (a : ℚ) : ℚ := mkRat a.num (a.den * 2)

/-! ## parse_number (parser.py lines 27-64) -/

/-- Characters kept by the first cleanup of parse_number. -/
def numKeep (c : Char) : Bool := c.isDigit || c == '-' || c == ',' || c == '.'

/-- The cleaned separator string of parse_number: strip, then keep only
digits, minus and separators. -/
def cleanedNum (raw : List Char) : List Char := (stripB raw).filter numKeep

/-- The sentinel strings rejected by parse_number after cleanup. -/
def numSentinel (s : List Char) : Bool :=
  s.isEmpty || s == ['.'] || s == [','] || s == ['-'] || s == ['-', '.'] || s == ['-', ',']

/-- The regex comma-followed-by-one-to-three-trailing-digits test: the text
after the last comma is one to three digits running to the end. -/
def commaDecSuffix (s : List Char) : Bool :=
  let tailAfter := (s.reverse.takeWhile (fun c => !(c == ','))).reverse
  s.contains ',' && !tailAfter.isEmpty && tailAfter.length ≤ 3 && tailAfter.all Char.isDigit

/-- With both separators present: is the right-most one the dot? -/
def lastSepIsDotAux : List Char → Bool
  | [] => false
  | c :: r => if c == '.' then true else if c == ',' then false else lastSepIsDotAux r

/-- rfind comparison of parse_number: the last dot sits after the last comma. -/
def lastSepIsDot (s : List Char) : Bool := lastSepIsDotAux s.reverse

/-- str.replace of a comma by a dot, character-wise. -/
def commaToDot (c : Char) : Char := if c == ',' then '.' else c

/-- str.replace of a character by the empty string. -/
def dropChar (x : Char) (s : List Char) : List Char := s.filter (fun c => !(c == x))

/-- parse_number of parser.py on character lists. -/
def parseNumL (raw : List Char) : Option ℚ :=
  if (stripB raw).isEmpty then none
  else
    let s := cleanedNum raw
    if numSentinel s then none
    else if s.contains ',' && s.contains '.' then
      if lastSepIsDot s then pyFloat (dropChar ',' s)
      else pyFloat ((dropChar '.' s).map commaToDot)
    else if s.contains ',' then
      if commaDecSuffix s then pyFloat ((dropChar '.' s).map commaToDot)
      else pyFloat (dropChar ',' s)
    else pyFloat (dropChar ',' s)

/-- parse_number of parser.py (locale number parser). -/
def parse_number (s : String) : Option ℚ := parseNumL s.data

/-! ## neg_abs and the credit-note sign normalizer (parser.py 84-89, 745-761) -/

/-- neg_abs of parser.py: force a monetary amount negative, coalescing
a missing value to zero first. -/
def neg_abs (v : Option ℚ) : ℚ := -|v.getD 0|

/-- One deduction line of the record (DeductionLine dataclass). -/
structure DeductionLine where
  concepto : String
  neto : ℚ
  alic : ℚ
  iva : ℚ
  total : ℚ
deriving DecidableEq

/-- The monetary fields of the assembled Liquidacion record that the
credit-note normalizer touches (parser.py lines 745-761). -/
structure LiqMonetary where
  neto : ℚ
  iva : ℚ
  total : ℚ
  ret_iva : ℚ
  ret_gan : ℚ
  deducciones : List DeductionLine
deriving DecidableEq

/-- The per-line rewrite of the credit-note branch: neto, iva and total of a
deduction line are forced negative, the rate is kept. -/
def neg_abs_line (d : DeductionLine) : DeductionLine :=
  { concepto := d.concepto
    neto := neg_abs (some d.neto)
    alic := d.alic
    iva := neg_abs (some d.iva)
    total := neg_abs (some d.total) }

/-- The sign normalization step of parse_liquidacion_pdf: when the
credit-note trigger fired, every monetary field is replaced by neg_abs of
itself and every deduction line is rewritten by neg_abs_line. -/
def applyNCSign (es_nc : Bool) (r : LiqMonetary) : LiqMonetary :=
  if es_nc then
    { neto := neg_abs (some r.neto)
      iva := neg_abs (some r.iva)
      total := neg_abs (some r.total)
      ret_iva := neg_abs (some r.ret_iva)
      ret_gan := neg_abs (some r.ret_gan)
      deducciones := r.deducciones.map neg_abs_line }
  else r

/-! ## is_nc, the credit-note detector (parser.py 169-176) -/

/-- Strip a literal prefix, returning the remainder on success. -/
def stripPrefixL : List Char → List Char → Option (List Char)
  | [], s => some s
  | _ :: _, [] => none
  | p :: ps, c :: cs => if p == c then stripPrefixL ps cs else none

/-- The flexible-dash class of the credit-note regex. -/
def isDashCh (c : Char) : Bool := c == '-' || c == '–' || c == '—'

/-- Match of the credit-note conditions phrase at the head of the text:
the fixed phrase, optional whitespace, one dash, optional whitespace,
the adjustment phrase. -/
def condAjusteAt (s : List Char) : Bool :=
  match stripPrefixL "CONDICIONES DE LA OPERACION".data s with
  | none => false
  | some r =>
    match dropSp r with
    | [] => false
    | d :: r2 => isDashCh d && isPrefixL "AJUSTE CREDITO".data (dropSp r2)

/-- re.search of the credit-note conditions pattern. -/
def condAjusteSearch : List Char → Bool
  | [] => false
  | c :: rest => condAjusteAt (c :: rest) || condAjusteSearch rest

/-- is_nc of parser.py: both the conditions phrase and the literal
AJUSTE UNIFICADO occur in the normalized full text. -/
def is_nc (full_text_norm : String) : Bool :=
  condAjusteSearch full_text_norm.data &&
    containsSub "AJUSTE UNIFICADO".data full_text_norm.data

/-- The detector as parse_liquidacion_pdf runs it: is_nc applied to the
norm of the full text. -/
def es_nc_of (full_text : String) : Bool := is_nc (pyNormS full_text)

/-! ## Numeric token scanners (the findall and finditer regexes) -/

/-- Continuation characters of a numeric token. -/
def isNumCls (c : Char) : Bool := c.isDigit || c == '.' || c == ','

/-- Split a maximal run of numeric-continuation characters off the front. -/
def spanNum (l : List Char) : List Char × List Char :=
  (l.takeWhile isNumCls, l.dropWhile isNumCls)

/-- findall of the bare numeric token regex (optional minus, digit, then
digits, dots and commas), non-overlapping and left to right.  The fuel is
the remaining text length, which each step strictly decreases. -/
def numToksF : Nat → List Char → List (List Char)
  | 0, _ => []
  | _ + 1, [] => []
  | fuel + 1, '-' :: rest =>
    (match rest with
     | d :: rr =>
       if d.isDigit then ('-' :: d :: (spanNum rr).1) :: numToksF fuel (spanNum rr).2
       else numToksF fuel (d :: rr)
     | [] => [])
  | fuel + 1, c :: rest =>
    if c.isDigit then (c :: (spanNum rest).1) :: numToksF fuel (spanNum rest).2
    else numToksF fuel rest

/-- findall of the bare numeric token regex. -/
def numToks (l : List Char) : List (List Char) := numToksF l.length l

/-- finditer of the currency-prefixed token regex: a dollar sign, optional
whitespace, then a numeric token; failed attempts resume one character
later, successes resume after the token. -/
def dollarToksF : Nat → List Char → List (List Char)
  | 0, _ => []
  | _ + 1, [] => []
  | fuel + 1, '$' :: rest =>
    (match dropSp rest with
     | '-' :: d :: rr =>
       if d.isDigit then ('-' :: d :: (spanNum rr).1) :: dollarToksF fuel (spanNum rr).2
       else dollarToksF fuel rest
     | d :: rr =>
       if d.isDigit then (d :: (spanNum rr).1) :: dollarToksF fuel (spanNum rr).2
       else dollarToksF fuel rest
     | [] => [])
  | fuel + 1, _ :: rest => dollarToksF fuel rest

/-- finditer of the currency-prefixed token regex. -/
def dollarToks (l : List Char) : List (List Char) := dollarToksF l.length l

/-- Python max with the absolute-value key: on ties the earlier element wins. -/
def firstMaxAbs (h : ℚ) (t : List ℚ) : ℚ :=
  t.foldl (fun b v => if |b| < |v| then v else b) h

/-- Python min with the absolute-value key: on ties the earlier element wins. -/
def firstMinAbs (h : ℚ) (t : List ℚ) : ℚ :=
  t.foldl (fun b v => if |v| < |b| then v else b) h

/-! ## The RETENCIONES table resolver (parser.py 489-547) -/

/-- Word character for the regex word-boundary assertion, over the document
alphabet. -/
def isWordCh (c : Char) : Bool :=
  c.isAlphanum || c == '_' ||
  c == 'á' || c == 'é' || c == 'í' || c == 'ó' || c == 'ú' || c == 'ü' || c == 'ñ' ||
  c == 'Á' || c == 'É' || c == 'Í' || c == 'Ó' || c == 'Ú' || c == 'Ü' || c == 'Ñ'

/-- Consume one optional dot. -/
def optDot (s : List Char) : List Char :=
  match s with
  | '.' :: r => r
  | _ => s

/-- Body of the tax-type token regex at the head of the text: the letters
I, V, A case-insensitively, each followed by an optional dot and optional
whitespace, with a word boundary after the final letter. -/
def ivaBodyAt (s : List Char) : Bool :=
  match s with
  | i :: r =>
    (i == 'I' || i == 'i') &&
    (match dropSp (optDot r) with
     | v :: r3 =>
       (v == 'V' || v == 'v') &&
       (match dropSp (optDot r3) with
        | a :: r5 =>
          (a == 'A' || a == 'a') &&
          (match r5 with
           | [] => true
           | c :: _ => !isWordCh c)
        | [] => false)
     | [] => false)
  | [] => false

/-- re.search of the tax-type token regex, tracking the previous character
for the leading word boundary. -/
def ivaSearchAux : Option Char → List Char → Bool
  | _, [] => false
  | prev, c :: rest =>
    ((match prev with
      | none => true
      | some p => !isWordCh p) && ivaBodyAt (c :: rest))
      || ivaSearchAux (some c) rest

/-- re.search of the tax-type token regex over a whole line. -/
def ivaTokenSearch (l : List Char) : Bool := ivaSearchAux none l

/-- The stop keywords that end a retention block. -/
def stopKws : List (List Char) :=
  ["IMPORTES".data, "TOTAL".data, "FIRMA".data, "OTROS".data,
   "GRAV".data, "LIQUID".data, "DEDUCC".data, "IMPUESTO".data]

/-- The uppercase letter class of the continuation test. -/
def isUpperLetterEs (c : Char) : Bool :=
  ('A' ≤ c && c ≤ 'Z') || c == 'Á' || c == 'É' || c == 'Í' || c == 'Ó' || c == 'Ú' || c == 'Ñ'

/-- looks_like_continuation of parser.py. -/
def looks_like_continuation (line : List Char) : Bool :=
  let u := stripB (pyUpper line)
  if u.isEmpty then false
  else if stopKws.any (fun k => containsSub k u) then false
  else if containsSub "REGIMEN".data u then true
  else if u.any isUpperLetterEs then false
  else u.any Char.isDigit

/-- Case-insensitive literal match returning the remainder. -/
def matchCIlit : List Char → List Char → Option (List Char)
  | [], s => some s
  | _ :: _, [] => none
  | p :: ps, c :: cs => if p.toLower == c.toLower then matchCIlit ps cs else none

/-- One mandatory whitespace character followed by any further whitespace. -/
def spaces1 (s : List Char) : Option (List Char) :=
  match s with
  | c :: r => if isPySpace c then some (dropSp r) else none
  | [] => none

/-- A numeric token at the head of the text. -/
def numTokAt : List Char → Option (List Char)
  | '-' :: d :: rr => if d.isDigit then some ('-' :: d :: (spanNum rr).1) else none
  | d :: rr => if d.isDigit then some (d :: (spanNum rr).1) else none
  | [] => none

/-- Match of the labeled total regex (Total, whitespace, Retenciones,
whitespace, Afip, optional whitespace, colon, optional dollar, token) at
the head of the text. -/
def matchTotalAfipAt (s : List Char) : Option (List Char) :=
  (matchCIlit "Total".data s).bind fun r1 =>
  (spaces1 r1).bind fun r2 =>
  (matchCIlit "Retenciones".data r2).bind fun r3 =>
  (spaces1 r3).bind fun r4 =>
  (matchCIlit "Afip".data r4).bind fun r5 =>
  match dropSp r5 with
  | ':' :: r7 =>
    let r8 := dropSp r7
    numTokAt (match r8 with
              | '$' :: rr => dropSp rr
              | _ => r8)
  | _ => none

/-- re.search of the labeled total regex. -/
def searchTotalAfip : List Char → Option (List Char)
  | [] => none
  | c :: rest =>
    match matchTotalAfipAt (c :: rest) with
    | some tok => some tok
    | none => searchTotalAfip rest

/-- The working section: 1200 characters of original text from the first
occurrence of RETENCIONES in the uppercased text. -/
def retSection (ft : List Char) : Option (List Char) :=
  (findSub "RETENCIONES".data (pyUpper ft)).map (fun s => (ft.drop s).take 1200)

/-- The labeled AFIP total of the section, coalesced through parse_number. -/
def retTotalAfip (sec : List Char) : Option ℚ :=
  (searchTotalAfip sec).map (fun tok => (parseNumL tok).getD 0)

/-- Index of the anchor line: the first line holding a percent sign and the
tax-type token but not the decoy phrase IVA RG. -/
def retAnchorIdxAux : Nat → List (List Char) → Option Nat
  | _, [] => none
  | i, ln :: rest =>
    let u := pyUpper ln
    if u.contains '%' && ivaTokenSearch ln && !containsSub "IVA RG".data u then some i
    else retAnchorIdxAux (i + 1) rest

/-- Index of the anchor line in the section lines. -/
def retAnchorIdx (lines : List (List Char)) : Option Nat := retAnchorIdxAux 0 lines

/-- The anchor block: the anchor line plus at most two stripped
continuation lines, joined by blanks. -/
def mkBlock (lines : List (List Char)) (i : Nat) : List Char :=
  let first := stripB (lines.getD i [])
  let conts := (((lines.drop (i + 1)).take 2).map stripB).takeWhile looks_like_continuation
  joinSep [' '] (first :: conts)

/-- The anchor block of a document, when the section and the anchor exist. -/
def retBlock (full_text : String) : Option (List Char) :=
  (retSection full_text.data).bind fun sec =>
    (retAnchorIdx (splitLines sec)).map fun i => mkBlock (splitLines sec) i

/-- The labeled AFIP total of a document: the section sliced first, then
the labeled total regex searched inside it. -/
def retAfipOf (full_text : String) : Option ℚ :=
  (retSection full_text.data).bind retTotalAfip

/-- Parsed currency-prefixed candidates of a block, nonzero beyond the
rounding floor. -/
def dollarVals (block : List Char) : List ℚ :=
  ((dollarToks block).filterMap parseNumL).filter (fun v => decide (mkRat 1 10000 < |v|))

/-- Parsed bare numeric candidates of a block, nonzero beyond the rounding
floor. -/
def bareVals (block : List Char) : List ℚ :=
  ((numToks block).filterMap parseNumL).filter (fun v => decide (mkRat 1 10000 < |v|))

/-- extract_retencion_iva_from_retenciones_table of parser.py. -/
def extract_retencion_iva_from_retenciones_table (full_text : String) : ℚ :=
  match retSection full_text.data with
  | none => 0
  | some sec =>
    let lines := splitLines sec
    let total_afip := retTotalAfip sec
    match retAnchorIdx lines with
    | none => total_afip.getD 0
    | some i =>
      let block := mkBlock lines i
      match dollarVals block with
      | d :: ds => firstMaxAbs d ds
      | [] =>
        match bareVals block with
        | n :: ns => firstMinAbs n ns
        | [] => total_afip.getD 0

/-- extract_retenciones of parser.py: the VAT amount from the table
resolver, the income-tax amount pinned to zero. -/
def extract_retenciones (full_text : String) : ℚ × ℚ :=
  (extract_retencion_iva_from_retenciones_table full_text, 0)

/-! ## The DEDUCCIONES table parser (parser.py 558-641) -/

/-- Optional dollar sign followed by optional whitespace. -/
def optDollarSp (s : List Char) : List Char :=
  match s with
  | '$' :: r => dropSp r
  | _ => s

/-- Tail of the five-column deduction pattern after the lazy concept group:
whitespace, optional dollar, amount, whitespace, rate with optional percent
sign, whitespace, optional dollar, vat, whitespace, optional dollar, total,
optional trailing whitespace, end of line.  Returns the four numeric group
strings. -/
def tailFull (s : List Char) : Option (List Char × List Char × List Char × List Char) :=
  (spaces1 s).bind fun r1 =>
  (numTokAt (optDollarSp r1)).bind fun g2 =>
  let r2 := (optDollarSp r1).drop g2.length
  (spaces1 r2).bind fun r3 =>
  (numTokAt r3).bind fun g3 =>
  let r4 := r3.drop g3.length
  let r5 := match r4 with
            | '%' :: rr => rr
            | _ => r4
  (spaces1 r5).bind fun r6 =>
  (numTokAt (optDollarSp r6)).bind fun g4 =>
  let r7 := (optDollarSp r6).drop g4.length
  (spaces1 r7).bind fun r8 =>
  (numTokAt (optDollarSp r8)).bind fun g5 =>
  let r9 := (optDollarSp r8).drop g5.length
  if (dropSp r9).isEmpty then some (g2, g3, g4, g5) else none

/-- Tail of the exempt deduction pattern: like tailFull but with the rate
pinned to the literal zero digit. -/
def tailZero (s : List Char) : Option (List Char × List Char × List Char) :=
  (spaces1 s).bind fun r1 =>
  (numTokAt (optDollarSp r1)).bind fun g2 =>
  let r2 := (optDollarSp r1).drop g2.length
  (spaces1 r2).bind fun r3 =>
  (match r3 with
   | '0' :: rr => some (match rr with
                        | '%' :: r4 => r4
                        | _ => rr)
   | _ => none).bind fun r5 =>
  (spaces1 r5).bind fun r6 =>
  (numTokAt (optDollarSp r6)).bind fun g3 =>
  let r7 := (optDollarSp r6).drop g3.length
  (spaces1 r7).bind fun r8 =>
  (numTokAt (optDollarSp r8)).bind fun g4 =>
  let r9 := (optDollarSp r8).drop g4.length
  if (dropSp r9).isEmpty then some (g2, g3, g4) else none

/-- Lazy scan of the concept group of the five-column pattern: the shortest
prefix whose remainder matches the tail wins. -/
def patFullGoF :
    Nat → List Char → List Char →
      Option (List Char × List Char × List Char × List Char × List Char)
  | 0, _, _ => none
  | fuel + 1, conceptRev, rest =>
    match tailFull rest with
    | some (g2, g3, g4, g5) => some (conceptRev.reverse, g2, g3, g4, g5)
    | none =>
      match rest with
      | [] => none
      | c :: r => patFullGoF fuel (c :: conceptRev) r

/-- re.search of the anchored five-column deduction pattern. -/
def patFullSearch (s : List Char) :
    Option (List Char × List Char × List Char × List Char × List Char) :=
  patFullGoF (s.length + 1) [] s

/-- Lazy scan of the concept group of the exempt pattern. -/
def patZeroGoF :
    Nat → List Char → List Char →
      Option (List Char × List Char × List Char × List Char)
  | 0, _, _ => none
  | fuel + 1, conceptRev, rest =>
    match tailZero rest with
    | some (g2, g3, g4) => some (conceptRev.reverse, g2, g3, g4)
    | none =>
      match rest with
      | [] => none
      | c :: r => patZeroGoF fuel (c :: conceptRev) r

/-- re.search of the anchored exempt deduction pattern. -/
def patZeroSearch (s : List Char) :
    Option (List Char × List Char × List Char × List Char) :=
  patZeroGoF (s.length + 1) [] s

/-- looks_like_header of the deduction parser. -/
def looksHeaderDed (ln : List Char) : Bool :=
  let n := pyNorm ln
  isPrefixL "DEDUCCIONES".data n ||
  (containsSub "CONCEPTO".data n &&
    (containsSub "ALICUOTA".data n || containsSub "ALÍCUOTA".data n)) ||
  (containsSub "BASE".data n &&
    (containsSub "CALC".data n || containsSub "CÁLC".data n)) ||
  (containsSub "NETO".data n && containsSub "IVA".data n && containsSub "TOTAL".data n)

/-- The anchored three-to-seven-digit-code-then-pipe test of a detail line. -/
def detailPrefix (ln2 : List Char) : Bool :=
  let ds := ln2.takeWhile Char.isDigit
  decide (3 ≤ ds.length) && decide (ds.length ≤ 7) && (ln2.drop ds.length).head? == some '|'

/-- Python float-or with truthiness: a missing or zero value falls back. -/
def pyOrQ (v : Option ℚ) (d : ℚ) : ℚ :=
  match v with
  | some x => if x = 0 then d else x
  | none => d

/-- The loop state of the deduction parser. -/
structure DedState where
  pending : List Char
  buffer : List Char
  out : List DeductionLine

/-- One iteration of the deduction parser loop over a stripped nonempty
line of the section. -/
def dedStep (st : DedState) (ln : List Char) : DedState :=
  if looksHeaderDed ln then st
  else
    let ln2 := collapseSp ln
    if detailPrefix ln2 && !ln2.contains '$' &&
       (patFullSearch ln2).isNone && (patZeroSearch ln2).isNone then
      { st with pending := ln2 }
    else
      let candidate := if st.buffer.isEmpty then ln2 else stripB (st.buffer ++ ' ' :: ln2)
      match patFullSearch candidate with
      | some (c1, g2, g3, g4, g5) =>
        let concepto0 := stripB c1
        let neto := (parseNumL g2).getD 0
        let alic := (parseNumL g3).getD 0
        let iva := (parseNumL g4).getD 0
        let total := (parseNumL g5).getD 0
        let concepto := if st.pending.isEmpty then concepto0
                        else stripB (st.pending ++ ' ' :: concepto0)
        { pending := [], buffer := [],
          out := st.out ++ [⟨String.mk concepto, neto, alic, iva, total⟩] }
      | none =>
        match patZeroSearch candidate with
        | some (c1, g2, g3, g4) =>
          let concepto0 := stripB c1
          let total_base := (parseNumL g2).getD 0
          let iva := (parseNumL g3).getD 0
          let total := pyOrQ (parseNumL g4) total_base
          let concepto := if st.pending.isEmpty then concepto0
                          else stripB (st.pending ++ ' ' :: concepto0)
          { pending := [], buffer := [],
            out := st.out ++ [⟨String.mk concepto, total_base, 0, iva, total⟩] }
        | none =>
          if candidate.length < 220 then { st with buffer := candidate }
          else { st with buffer := [] }

/-- extract_deducciones of parser.py. -/
def extract_deducciones (page_text : String) : List DeductionLine :=
  let pt := page_text.data
  let up := pyUpper pt
  match findSub "DEDUCCIONES".data up, findSub "RETENCIONES".data up with
  | some s, some e =>
    if e ≤ s then []
    else
      let sec := (pt.drop s).take (e - s)
      let raw_lines := ((splitLines sec).map stripB).filter (fun l => !l.isEmpty)
      (raw_lines.foldl dedStep ⟨[], [], []⟩).out
  | _, _ => []

/-! ## The adjustment-path operation extractor (parser.py 377-430) -/

/-- The accent-or-plain O class under IGNORECASE. -/
def isOClass (c : Char) : Bool := c == 'Ó' || c == 'O' || c == 'ó' || c == 'o'

/-- The accent-or-plain E class under IGNORECASE. -/
def isEClass (c : Char) : Bool := c == 'É' || c == 'E' || c == 'é' || c == 'e'

/-- Match of the credit-adjustment section header at the head of the text,
returning the consumed length. -/
def condCredAt (s : List Char) : Option Nat :=
  (matchCIlit "CONDICIONES DE LA OPERACI".data s).bind fun r1 =>
  match r1 with
  | o :: n :: r3 =>
    if isOClass o && (n == 'N' || n == 'n') then
      match dropSp r3 with
      | d :: r5 =>
        if isDashCh d then
          (matchCIlit "AJUSTE CR".data (dropSp r5)).bind fun r6 =>
          match r6 with
          | e :: r7 =>
            if isEClass e then
              (matchCIlit "DITO".data r7).map (fun r8 => s.length - r8.length)
            else none
          | [] => none
        else none
      | [] => none
    else none
  | _ => none

/-- re.search of the credit-adjustment section header, returning start and
end offsets of the first match. -/
def findCondCredAux : Nat → List Char → Option (Nat × Nat)
  | _, [] => none
  | i, c :: rest =>
    match condCredAt (c :: rest) with
    | some n => some (i, i + n)
    | none => findCondCredAux (i + 1) rest

/-- re.search of the credit-adjustment section header. -/
def findCondCred (s : List Char) : Option (Nat × Nat) := findCondCredAux 0 s

/-- Match of the newline-anchored next-section header at the head of the
text (a newline, optional whitespace, the conditions phrase, a word
boundary). -/
def condHeadAt (s : List Char) : Bool :=
  match s with
  | '\n' :: r =>
    (match matchCIlit "CONDICIONES DE LA OPERACI".data (dropSp r) with
     | some (o :: n :: rest) =>
       isOClass o && (n == 'N' || n == 'n') &&
       (match rest with
        | [] => true
        | c :: _ => !isWordCh c)
     | _ => false)
  | _ => false

/-- re.search of the next-section header, returning its start offset. -/
def findCondHeadAux : Nat → List Char → Option Nat
  | _, [] => none
  | i, c :: rest =>
    if condHeadAt (c :: rest) then some i else findCondHeadAux (i + 1) rest

/-- re.search of the next-section header. -/
def findCondHead (s : List Char) : Option Nat := findCondHeadAux 0 s

/-- The credit-adjustment section slice of the full text. -/
def ajusteSection (ft : List Char) : Option (List Char) :=
  (findCondCred ft).map fun se =>
    let en := se.2
    let e := match findCondHead (ft.drop en) with
             | some j => en + j
             | none => ft.length
    (ft.drop se.1).take (e - se.1)

/-- The stripped, whitespace-collapsed nonempty lines of the section. -/
def ajusteLines (ft : List Char) : Option (List (List Char)) :=
  (ajusteSection ft).map fun sec =>
    ((splitLines sec).filter (fun l => !(stripB l).isEmpty)).map (fun l => collapseSp (stripB l))

/-- Body of the word-bounded OPERACION token at the head of the text. -/
def operacionBodyAt (s : List Char) : Bool :=
  match matchCIlit "OPERACI".data s with
  | some (o :: n :: rest) =>
    isOClass o && (n == 'N' || n == 'n') &&
    (match rest with
     | [] => true
     | c :: _ => !isWordCh c)
  | _ => false

/-- re.search of the word-bounded OPERACION token. -/
def operacionSearchAux : Option Char → List Char → Bool
  | _, [] => false
  | prev, c :: rest =>
    ((match prev with
      | none => true
      | some p => !isWordCh p) && operacionBodyAt (c :: rest))
      || operacionSearchAux (some c) rest

/-- re.search of the word-bounded OPERACION token over a line. -/
def operacionSearch (l : List Char) : Bool := operacionSearchAux none l

/-- re.search of the word-bounded Kg unit token, case-insensitively. -/
def kgSearchAux : Option Char → List Char → Bool
  | _, [] => false
  | prev, c :: rest =>
    ((match prev with
      | none => true
      | some p => !isWordCh p) &&
     (c == 'K' || c == 'k') &&
     (match rest with
      | g :: rr =>
        (g == 'G' || g == 'g') &&
        (match rr with
         | [] => true
         | x :: _ => !isWordCh x)
      | [] => false))
      || kgSearchAux (some c) rest

/-- re.search of the word-bounded Kg unit token over a line. -/
def kgSearch (l : List Char) : Bool := kgSearchAux none l

/-- Index of the OPERACION sub-line among the section lines. -/
def opIdxAux : Nat → List (List Char) → Option Nat
  | _, [] => none
  | i, ln :: rest => if operacionSearch ln then some i else opIdxAux (i + 1) rest

/-- The data row: the first of the eleven lines after the OPERACION
sub-line holding the Kg token together with a digit. -/
def ajusteDataLine (lines : List (List Char)) (opIdx : Nat) : Option (List Char) :=
  ((lines.drop (opIdx + 1)).take 11).find? (fun ln => kgSearch ln && ln.any Char.isDigit)

/-- The parsed numeric tokens of the data row of the adjustment section. -/
def ajusteVals (full_text : String) : Option (List ℚ) :=
  (ajusteLines full_text.data).bind fun lines =>
  (opIdxAux 0 lines).bind fun oi =>
  (ajusteDataLine lines oi).map fun dl =>
  (numToks dl).filterMap parseNumL

/-- extract_operation_from_ajuste_credito of parser.py: positional split
of the parsed tokens of the data row. -/
def extract_operation_from_ajuste_credito (full_text : String) :
    Option (ℚ × ℚ × ℚ × ℚ × ℚ × ℚ) :=
  match ajusteVals full_text with
  | none => none
  | some vals =>
    if vals.length < 5 then none
    else if 6 ≤ vals.length then
      some (vals.getD 0 0, vals.getD 1 0, vals.getD 2 0,
            vals.getD 3 0, vals.getD 4 0, vals.getD 5 0)
    else
      some (vals.getD 0 0, vals.getD 1 0, vals.getD 2 0,
            mkRat 21 2, vals.getD 3 0, vals.getD 4 0)

/-! ## The layout column splitter (parser.py 259-329) -/

/-- One extracted word with its bounding-box left edge and top edge. -/
structure PWord where
  text : String
  x0 : ℚ
  top : ℚ
deriving DecidableEq

/-- Left edge of the first word whose normalized text equals the token. -/
def findFirstX0 (tok : List Char) : List PWord → Option ℚ
  | [] => none
  | w :: rest => if pyNorm w.text.data == tok then some w.x0 else findFirstX0 tok rest

/-- The split abscissa: the midpoint of the two header tokens when both are
found in the expected order, else half the page width. -/
def xSplitOf (words : List PWord) (width : ℚ) : ℚ :=
  match findFirstX0 "COMPRADOR".data words, findFirstX0 "VENDEDOR".data words with
  | some cx, some vx => if cx < vx then ratHalf (ratAdd cx vx) else ratHalf width
  | _, _ => ratHalf width

/-- find_top of parser.py: least top edge among words matching the
normalized token. -/
def findTop (token : String) (words : List PWord) : Option ℚ :=
  let tn := pyNorm token.data
  match (words.filter (fun w => pyNorm w.text.data == tn)).map (fun w => w.top) with
  | [] => none
  | t :: ts => some (ts.foldl min t)

/-- Python or on optional floats, with zero counting as falsy. -/
def pyOrOptQ (a b : Option ℚ) : Option ℚ :=
  match a with
  | some v => if v = 0 then b else some v
  | none => b

/-- The stable sort order of group_words_to_lines: by top edge, then by
left edge. -/
def wordLe (a b : PWord) : Bool :=
  decide (a.top < b.top) || (decide (a.top = b.top) && decide (a.x0 ≤ b.x0))

/-- Stable insertion into a sorted prefix: a later word never jumps before
an equal-keyed earlier one. -/
def insSorted (x : PWord) : List PWord → List PWord
  | [] => [x]
  | y :: ys => if wordLe y x then y :: insSorted x ys else x :: y :: ys

/-- The line-clustering state of group_words_to_lines. -/
structure GroupSt where
  lines : List (List (List Char))
  current : List (List Char)
  curTop : ℚ

/-- One step of the clustering loop: flush when the top edge jumps by more
than the tolerance, else append to the current line. -/
def groupStep (st : GroupSt) (w : PWord) : GroupSt :=
  if decide (3 < |ratSub w.top st.curTop|) then
    { lines := st.lines ++ (if st.current.isEmpty then [] else [st.current])
      current := [w.text.data]
      curTop := w.top }
  else { st with current := st.current ++ [w.text.data] }

/-- group_words_to_lines of parser.py: sort by position, cluster into
lines by top edge, join each line with blanks, drop blank lines. -/
def groupWordsToLines (words : List PWord) : List (List Char) :=
  let ws := words.foldl (fun acc w => insSorted w acc) []
  match ws with
  | [] => []
  | w0 :: _ =>
    let st := ws.foldl groupStep ⟨[], [], w0.top⟩
    let allLines := st.lines ++ (if st.current.isEmpty then [] else [st.current])
    (allLines.map (fun l => stripB (joinSep [' '] l))).filter (fun l => !l.isEmpty)

/-- The two column text blocks of extract_parties_from_layout: the party
band is cut vertically between the buyer header and the broker footer and
split horizontally at the split abscissa; each side is regrouped into
lines and joined with newlines. -/
def partiesBlocks (words : List PWord) (width : ℚ) : String × String :=
  let x_split := xSplitOf words width
  let y_start := (findTop "COMPRADOR" words).getD 0
  let y_end := (pyOrOptQ (findTop "ACTUÓ" words) (findTop "ACTUO" words)).getD (ratAdd y_start 180)
  let block := words.filter (fun w => decide (y_start ≤ w.top) && decide (w.top ≤ y_end))
  let leftW := block.filter (fun w => decide (w.x0 < x_split))
  let rightW := block.filter (fun w => decide (x_split ≤ w.x0))
  (⟨joinSep ['\n'] (groupWordsToLines leftW)⟩, ⟨joinSep ['\n'] (groupWordsToLines rightW)⟩)

/-- The block handed to the buyer party extractor: always the left one
(parser.py line 318). -/
def compradorBlockOf (words : List PWord) (width : ℚ) : String :=
  (partiesBlocks words width).1

/-- The block handed to the seller party extractor: always the right one
(parser.py line 319). -/
def vendedorBlockOf (words : List PWord) (width : ℚ) : String :=
  (partiesBlocks words width).2

/-- Modelled from the spec: the post-hoc swap check that section 4.3 of the
spec describes (swap the two blocks when the left one names the seller and
the right one names the buyer, and not vice versa).  parser.py has no such
step; this definition exists to compare the spec against the code. -/
def swapCheck_specModel (lr : String × String) : String × String :=
  let lIsV := containsSub "VENDEDOR".data (pyNorm lr.1.data)
  let rIsC := containsSub "COMPRADOR".data (pyNorm lr.2.data)
  let lIsC := containsSub "COMPRADOR".data (pyNorm lr.1.data)
  let rIsV := containsSub "VENDEDOR".data (pyNorm lr.2.data)
  if lIsV && rIsC && !(lIsC || rIsV) then (lr.2, lr.1) else lr

/-! ## The standard operation-line extractor (parser.py 359-374) -/

/-- Backtracking candidates of one unsigned numeric group: a digit head,
then every prefix of the maximal continuation run, longest first (the
order a greedy star explores). -/
def numCands (s : List Char) : List (List Char × List Char) :=
  match s with
  | [] => []
  | c :: rest =>
    if c.isDigit then
      let run := rest.takeWhile isNumCls
      let rest2 := rest.drop run.length
      ((List.range (run.length + 1)).reverse).map
        (fun i => (c :: run.take i, run.drop i ++ rest2))
    else []

/-- Attempt of the standard operation regex immediately after a newline:
optional whitespace, six numeric groups with the Kg unit after the first
and optional currency signs before the monetary ones. -/
def stdOpAt (s : List Char) :
    Option (List Char × List Char × List Char × List Char × List Char × List Char) :=
  (numCands (dropSp s)).findSome? fun p1 =>
    match dropSp p1.2 with
    | k :: g :: r2 =>
      if (k == 'K' || k == 'k') && (g == 'G' || g == 'g') then
        (numCands (optDollarSp (dropSp r2))).findSome? fun p2 =>
          (numCands (optDollarSp (dropSp p2.2))).findSome? fun p3 =>
            (numCands (dropSp p3.2)).findSome? fun p4 =>
              (numCands (optDollarSp (dropSp p4.2))).findSome? fun p5 =>
                match (numCands (optDollarSp (dropSp p5.2))).head? with
                | some p6 => some (p1.1, p2.1, p3.1, p4.1, p5.1, p6.1)
                | none => none
      else none
    | _ => none

/-- re.search of the standard operation regex: the match must start at a
newline; attempts run left to right. -/
def stdOpSearch : List Char →
    Option (List Char × List Char × List Char × List Char × List Char × List Char)
  | [] => none
  | c :: rest =>
    if c = '\n' then
      match stdOpAt rest with
      | some gs => some gs
      | none => stdOpSearch rest
    else stdOpSearch rest

/-- extract_operation_numbers_standard of parser.py. -/
def extract_operation_numbers_standard (page_text : String) : ℚ × ℚ × ℚ × ℚ × ℚ × ℚ :=
  match stdOpSearch page_text.data with
  | none => (0, 0, 0, 0, 0, 0)
  | some (g1, g2, g3, g4, g5, g6) =>
    ((parseNumL g1).getD 0, (parseNumL g2).getD 0, (parseNumL g3).getD 0,
     (parseNumL g4).getD 0, (parseNumL g5).getD 0, (parseNumL g6).getD 0)

/-! ## Concrete documents used by the witnesses and counterexamples -/

/-- A credit-note document text (already carrying both trigger phrases). -/
def ncText0 : String :=
  "LIQUIDACION CONDICIONES DE LA OPERACION - AJUSTE CREDITO AJUSTE UNIFICADO"

/-- A monetary record before sign normalization. -/
def rec0 : LiqMonetary :=
  { neto := 100, iva := 21, total := 1000, ret_iva := 50, ret_gan := 0,
    deducciones := [⟨"Gastos", 10, mkRat 21 2, 1, 11⟩] }

/-- The retention example text of the spec: a currency-prefixed retained
amount next to a rate and a large bare base amount. -/
def exRetText : String :=
  "RETENCIONES\nI.V.A. 5% $ 479167.92 (Regimen de retencion) 9583358.40"

/-- The anchor block that exRetText produces. -/
def exRetBlock : List Char :=
  "I.V.A. 5% $ 479167.92 (Regimen de retencion) 9583358.40".data

/-- A retention table line with no currency-prefixed value and two bare
amounts that violate the rate relation in both orderings. -/
def cexRetText : String := "RETENCIONES\nI.V.A. 10% 50,00 200,00"

/-- The anchor block that cexRetText produces. -/
def cexRetBlock : List Char := "I.V.A. 10% 50,00 200,00".data

/-- A retention table whose anchor block carries no usable candidate (the
only amount parses to zero), so the resolver must fall back to the
labeled AFIP total. -/
def afipFallbackText : String :=
  "RETENCIONES\nI.V.A. % 0,00\nTotal Retenciones Afip: $ 123,45"

/-- The anchor block that afipFallbackText produces. -/
def afipFallbackBlock : List Char := "I.V.A. % 0,00".data

/-- An adjustment-path document whose data row carries five numeric
tokens (the rate omitted). -/
def ajusteText5 : String :=
  "CONDICIONES DE LA OPERACION - AJUSTE CREDITO\nOPERACION\n100 Kg 2 300 31,5 331,5\n"

/-- Synthetic word list with the headers in the expected order: buyer
header at the left edge, seller header at the right. -/
def wordsOk : List PWord :=
  [⟨"COMPRADOR", 0, 0⟩, ⟨"VENDEDOR", 300, 0⟩, ⟨"LEFTY", 10, 20⟩, ⟨"RIGHTY", 310, 20⟩]

/-- Synthetic word list with the visible header tokens swapped: the seller
header renders in the left column. -/
def wordsSwapped : List PWord :=
  [⟨"VENDEDOR", 0, 0⟩, ⟨"COMPRADOR", 300, 0⟩, ⟨"BETA", 10, 20⟩, ⟨"ALFA", 310, 20⟩]

/-! ## Helper lemmas -/

theorem neg_abs_line_invol (d : DeductionLine) :
    neg_abs_line (neg_abs_line d) = neg_abs_line d := by
  simp [neg_abs_line, neg_abs, abs_neg, abs_abs]

theorem map_neg_abs_line_idem (l : List DeductionLine) :
    (l.map neg_abs_line).map neg_abs_line = l.map neg_abs_line := by
  induction l with
  | nil => rfl
  | cons d tl ih => simp [neg_abs_line_invol, ih]

theorem ratAdd_eq (a b : ℚ) : ratAdd a b = a + b := by
  have ha : ((a.den : ℚ)) ≠ 0 := Nat.cast_ne_zero.mpr (Rat.den_ne_zero a)
  have hb : ((b.den : ℚ)) ≠ 0 := Nat.cast_ne_zero.mpr (Rat.den_ne_zero b)
  conv_rhs => rw [← Rat.num_div_den a, ← Rat.num_div_den b, div_add_div _ _ ha hb]
  rw [ratAdd, Rat.mkRat_eq_div]
  push_cast
  ring_nf

theorem ratSub_eq (a b : ℚ) : ratSub a b = a - b := by
  have ha : ((a.den : ℚ)) ≠ 0 := Nat.cast_ne_zero.mpr (Rat.den_ne_zero a)
  have hb : ((b.den : ℚ)) ≠ 0 := Nat.cast_ne_zero.mpr (Rat.den_ne_zero b)
  conv_rhs => rw [← Rat.num_div_den a, ← Rat.num_div_den b, div_sub_div _ _ ha hb]
  rw [ratSub, Rat.mkRat_eq_div]
  push_cast
  ring_nf

theorem ratHalf_eq (a : ℚ) : ratHalf a = a / 2 := by
  conv_rhs => rw [← Rat.num_div_den a]
  rw [ratHalf, Rat.mkRat_eq_div, div_div]
  push_cast
  ring_nf

theorem applyNC_idem (b : Bool) (r : LiqMonetary) :
    applyNCSign b (applyNCSign b r) = applyNCSign b r := by
  cases b with
  | false => rfl
  | true =>
    simp only [applyNCSign, if_true, LiqMonetary.mk.injEq]
    refine ⟨?_, ?_, ?_, ?_, ?_, map_neg_abs_line_idem _⟩ <;>
      simp [neg_abs, abs_neg, abs_abs]

/-! ## Claim theorems -/

/-- Claim C1: for every document whose normalized full text triggers the
credit-note detector, the sign normalizer sends neto, iva, total, ret_iva
and ret_gan to minus the absolute value of their previous contents, sends
every deduction line through the same rewrite of its neto, iva and total
(keeping the rate), and is idempotent: running it twice never
double-negates. -/
theorem claim_C1 (t : String) (r : LiqMonetary) (h : es_nc_of t = true) :
    (applyNCSign (es_nc_of t) r).neto = -|r.neto| ∧
    (applyNCSign (es_nc_of t) r).iva = -|r.iva| ∧
    (applyNCSign (es_nc_of t) r).total = -|r.total| ∧
    (applyNCSign (es_nc_of t) r).ret_iva = -|r.ret_iva| ∧
    (applyNCSign (es_nc_of t) r).ret_gan = -|r.ret_gan| ∧
    (applyNCSign (es_nc_of t) r).deducciones = r.deducciones.map neg_abs_line ∧
    (∀ d : DeductionLine,
      (neg_abs_line d).neto = -|d.neto| ∧ (neg_abs_line d).alic = d.alic ∧
      (neg_abs_line d).iva = -|d.iva| ∧ (neg_abs_line d).total = -|d.total|) ∧
    applyNCSign (es_nc_of t) (applyNCSign (es_nc_of t) r) = applyNCSign (es_nc_of t) r := by
  rw [h]
  refine ⟨?_, ?_, ?_, ?_, ?_, ?_, ?_, applyNC_idem true r⟩ <;>
    simp [applyNCSign, neg_abs, neg_abs_line]

/-- Witness for claim C1 on a concrete credit-note text and record:
total 1000 becomes -1000 and ret_iva 50 becomes -50. -/
theorem claim_C1_witness :
    es_nc_of ncText0 = true ∧
    (applyNCSign (es_nc_of ncText0) rec0).total = -1000 ∧
    (applyNCSign (es_nc_of ncText0) rec0).ret_iva = -50 := by
  have h : es_nc_of ncText0 = true := by decide
  have hc := claim_C1 ncText0 rec0 h
  exact ⟨h, hc.2.2.1.trans (by norm_num [rec0]), hc.2.2.2.1.trans (by norm_num [rec0])⟩

/-- Claim C3: the locale number parser treats the right-most of dot and
comma as the decimal separator when both occur, treats a lone comma as
decimal exactly when one to three digits run from it to the end, passes
dot-only or separator-free text through, and returns none on empty or
unparsable input; the five examples of the spec evaluate as stated. -/
theorem claim_C3 :
    (∀ r : List Char, (stripB r).isEmpty = false → numSentinel (cleanedNum r) = false →
      ',' ∈ cleanedNum r → '.' ∈ cleanedNum r →
      parseNumL r =
        (if lastSepIsDot (cleanedNum r) then pyFloat (dropChar ',' (cleanedNum r))
         else pyFloat ((dropChar '.' (cleanedNum r)).map commaToDot))) ∧
    (∀ r : List Char, (stripB r).isEmpty = false → numSentinel (cleanedNum r) = false →
      ',' ∈ cleanedNum r → '.' ∉ cleanedNum r →
      parseNumL r =
        (if commaDecSuffix (cleanedNum r) then
           pyFloat ((dropChar '.' (cleanedNum r)).map commaToDot)
         else pyFloat (dropChar ',' (cleanedNum r)))) ∧
    (∀ r : List Char, (stripB r).isEmpty = false → numSentinel (cleanedNum r) = false →
      ',' ∉ cleanedNum r →
      parseNumL r = pyFloat (dropChar ',' (cleanedNum r))) ∧
    parse_number "1.234.567,89" = some (123456789 / 100) ∧
    parse_number "129,250.00" = some 129250 ∧
    parse_number "27,14" = some (2714 / 100) ∧
    parse_number "" = none ∧
    parse_number "-," = none := by
  refine ⟨?_, ?_, ?_,
    by rw [show (123456789 / 100 : ℚ) = mkRat 123456789 100 by
         rw [Rat.mkRat_eq_div]; norm_num]
       decide,
    by decide,
    by rw [show (2714 / 100 : ℚ) = mkRat 2714 100 by rw [Rat.mkRat_eq_div]; norm_num]
       decide,
    by decide, by decide⟩
  · intro r h1 h2 h3 h4
    simp [parseNumL, h1, h2, h3, h4]
  · intro r h1 h2 h3 h4
    simp [parseNumL, h1, h2, h3, h4]
  · intro r h1 h2 h3
    simp [parseNumL, h1, h2, h3]

/-- Witness for claim C3: the mixed-separator rule instantiated on the
first spec example. -/
theorem claim_C3_witness :
    parseNumL "1.234.567,89".data =
      (if lastSepIsDot (cleanedNum "1.234.567,89".data) then
         pyFloat (dropChar ',' (cleanedNum "1.234.567,89".data))
       else pyFloat ((dropChar '.' (cleanedNum "1.234.567,89".data)).map commaToDot)) :=
  claim_C3.1 "1.234.567,89".data (by decide) (by decide) (by decide) (by decide)

/-- Claim C6: the retention extractor resolves the income-tax withholding
to zero for every input text, and the sign-normalized image of that zero
stays zero. -/
theorem claim_C6 (t : String) :
    (extract_retenciones t).2 = 0 ∧ neg_abs (some (extract_retenciones t).2) = 0 := by
  refine ⟨rfl, ?_⟩
  simp [extract_retenciones, neg_abs]

/-- Claim C7: the deduction parser maps the taxed example line to
net 1000, rate 10.5, vat 105, total 1105, and maps a zero-rate line to
rate 0 with the monetary total still carried. -/
theorem claim_C7 :
    extract_deducciones
        "DEDUCCIONES\nGastos Comerciales $ 1000,00 10,5% $ 105,00 $ 1105,00\nRETENCIONES"
      = [⟨"Gastos Comerciales", 1000, 21 / 2, 105, 1105⟩] ∧
    extract_deducciones "DEDUCCIONES\nVarios $ 500,00 0% $ 0,00 $ 500,00\nRETENCIONES"
      = [⟨"Varios", 500, 0, 0, 500⟩] := by
  refine ⟨?_, by decide⟩
  rw [show (21 / 2 : ℚ) = mkRat 21 2 by rw [Rat.mkRat_eq_div]; norm_num]
  decide

/-- Claim C8: extraction is deterministic; equal input text yields equal
results from every text-based extractor. -/
theorem claim_C8 (t1 t2 : String) (h : t1 = t2) :
    extract_retencion_iva_from_retenciones_table t1
      = extract_retencion_iva_from_retenciones_table t2 ∧
    extract_retenciones t1 = extract_retenciones t2 ∧
    extract_deducciones t1 = extract_deducciones t2 ∧
    extract_operation_from_ajuste_credito t1 = extract_operation_from_ajuste_credito t2 ∧
    extract_operation_numbers_standard t1 = extract_operation_numbers_standard t2 ∧
    parse_number t1 = parse_number t2 := by
  subst h
  exact ⟨rfl, rfl, rfl, rfl, rfl, rfl⟩

/-- Witness for claim C8 at a concrete repeated input. -/
theorem claim_C8_witness :
    extract_retencion_iva_from_retenciones_table cexRetText
      = extract_retencion_iva_from_retenciones_table cexRetText ∧
    extract_retenciones cexRetText = extract_retenciones cexRetText ∧
    extract_deducciones cexRetText = extract_deducciones cexRetText ∧
    extract_operation_from_ajuste_credito cexRetText
      = extract_operation_from_ajuste_credito cexRetText ∧
    extract_operation_numbers_standard cexRetText
      = extract_operation_numbers_standard cexRetText ∧
    parse_number cexRetText = parse_number cexRetText :=
  claim_C8 cexRetText cexRetText rfl

/-- Claim C9: the deduction extractor returns the empty list whenever the
RETENCIONES marker is absent or does not occur strictly after the
DEDUCCIONES marker; deduction lines only ever arise when both markers are
present with DEDUCCIONES strictly first. -/
theorem claim_C9 :
    (∀ t : String,
      (findSub "RETENCIONES".data (pyUpper t.data) = none ∨
        ∀ s e : Nat, findSub "DEDUCCIONES".data (pyUpper t.data) = some s →
          findSub "RETENCIONES".data (pyUpper t.data) = some e → e ≤ s) →
      extract_deducciones t = []) ∧
    (∀ t : String, extract_deducciones t ≠ [] →
      ∃ s e : Nat, findSub "DEDUCCIONES".data (pyUpper t.data) = some s ∧
        findSub "RETENCIONES".data (pyUpper t.data) = some e ∧ s < e) := by
  have part1 : ∀ t : String,
      (findSub "RETENCIONES".data (pyUpper t.data) = none ∨
        ∀ s e : Nat, findSub "DEDUCCIONES".data (pyUpper t.data) = some s →
          findSub "RETENCIONES".data (pyUpper t.data) = some e → e ≤ s) →
      extract_deducciones t = [] := by
    intro t h
    unfold extract_deducciones
    rcases hD : findSub "DEDUCCIONES".data (pyUpper t.data) with _ | s
    · simp [hD]
    · rcases hR : findSub "RETENCIONES".data (pyUpper t.data) with _ | e
      · simp [hD, hR]
      · have hle : e ≤ s := by
          rcases h with h | h
          · rw [hR] at h; exact absurd h (by simp)
          · exact h s e hD hR
        simp [hD, hR, if_pos hle]
  refine ⟨part1, ?_⟩
  intro t h
  rcases hD : findSub "DEDUCCIONES".data (pyUpper t.data) with _ | s
  · refine absurd (part1 t (Or.inr fun s' e' hs' _ => ?_)) h
    rw [hD] at hs'
    cases hs'
  · rcases hR : findSub "RETENCIONES".data (pyUpper t.data) with _ | e
    · exact absurd (part1 t (Or.inl hR)) h
    · by_cases hle : e ≤ s
      · refine absurd (part1 t (Or.inr fun s' e' hs' he' => ?_)) h
        rw [hD] at hs'
        rw [hR] at he'
        injection hs' with h1
        injection he' with h2
        omega
      · exact ⟨s, e, rfl, rfl, by omega⟩

/-- Witness for claim C9: a text with the DEDUCCIONES marker but no
RETENCIONES marker yields no deduction lines. -/
theorem claim_C9_witness : extract_deducciones "DEDUCCIONES sin cierre" = [] :=
  claim_C9.1 "DEDUCCIONES sin cierre" (Or.inl (by decide))

/-! ## Selection lemmas for the candidate lists of the retention resolver -/

theorem firstMinAbs_spec (n : ℚ) (ns : List ℚ) :
    firstMinAbs n ns ∈ n :: ns ∧ ∀ v ∈ n :: ns, |firstMinAbs n ns| ≤ |v| := by
  induction ns generalizing n with
  | nil =>
    refine ⟨List.mem_singleton_self n, ?_⟩
    intro v hv
    rw [List.mem_singleton] at hv
    subst hv
    exact le_refl _
  | cons x xs ih =>
    have hfold : firstMinAbs n (x :: xs) = firstMinAbs (if |x| < |n| then x else n) xs := rfl
    set a := if |x| < |n| then x else n with ha
    obtain ⟨hmem, hbd⟩ := ih a
    have hn_ge : |a| ≤ |n| := by
      by_cases hc : |x| < |n|
      · rw [ha, if_pos hc]; exact le_of_lt hc
      · rw [ha, if_neg hc]
    have hx_ge : |a| ≤ |x| := by
      by_cases hc : |x| < |n|
      · rw [ha, if_pos hc]
      · rw [ha, if_neg hc]; exact le_of_not_lt hc
    have hamem : a ∈ n :: x :: xs := by
      by_cases hc : |x| < |n|
      · rw [ha, if_pos hc]; exact List.mem_cons_of_mem _ (List.mem_cons_self _ _)
      · rw [ha, if_neg hc]; exact List.mem_cons_self _ _
    constructor
    · rw [hfold]
      rcases List.mem_cons.mp hmem with h | h
      · rw [h]; exact hamem
      · exact List.mem_cons_of_mem _ (List.mem_cons_of_mem _ h)
    · intro v hv
      rw [hfold]
      have haa : |firstMinAbs a xs| ≤ |a| := hbd a (List.mem_cons_self a xs)
      rcases List.mem_cons.mp hv with h | h
      · subst h; exact le_trans haa hn_ge
      · rcases List.mem_cons.mp h with h2 | h2
        · subst h2; exact le_trans haa hx_ge
        · exact hbd v (List.mem_cons_of_mem _ h2)

theorem firstMaxAbs_spec (d : ℚ) (ds : List ℚ) :
    firstMaxAbs d ds ∈ d :: ds ∧ ∀ v ∈ d :: ds, |v| ≤ |firstMaxAbs d ds| := by
  induction ds generalizing d with
  | nil =>
    refine ⟨List.mem_singleton_self d, ?_⟩
    intro v hv
    rw [List.mem_singleton] at hv
    subst hv
    exact le_refl _
  | cons x xs ih =>
    have hfold : firstMaxAbs d (x :: xs) = firstMaxAbs (if |d| < |x| then x else d) xs := rfl
    set a := if |d| < |x| then x else d with ha
    obtain ⟨hmem, hbd⟩ := ih a
    have hd_le : |d| ≤ |a| := by
      by_cases hc : |d| < |x|
      · rw [ha, if_pos hc]; exact le_of_lt hc
      · rw [ha, if_neg hc]
    have hx_le : |x| ≤ |a| := by
      by_cases hc : |d| < |x|
      · rw [ha, if_pos hc]
      · rw [ha, if_neg hc]; exact le_of_not_lt hc
    have hamem : a ∈ d :: x :: xs := by
      by_cases hc : |d| < |x|
      · rw [ha, if_pos hc]; exact List.mem_cons_of_mem _ (List.mem_cons_self _ _)
      · rw [ha, if_neg hc]; exact List.mem_cons_self _ _
    constructor
    · rw [hfold]
      rcases List.mem_cons.mp hmem with h | h
      · rw [h]; exact hamem
      · exact List.mem_cons_of_mem _ (List.mem_cons_of_mem _ h)
    · intro v hv
      rw [hfold]
      have haa : |a| ≤ |firstMaxAbs a xs| := hbd a (List.mem_cons_self a xs)
      rcases List.mem_cons.mp hv with h | h
      · subst h; exact le_trans hd_le haa
      · rcases List.mem_cons.mp h with h2 | h2
        · subst h2; exact le_trans hx_le haa
        · exact hbd v (List.mem_cons_of_mem _ h2)

/-- Claim C2 counterexample: on a retention table line with no
currency-prefixed value, two bare amounts 50 and 200 after the rate 10
percent, the rule of the claim demands 0 (neither ordering satisfies the
rate relation within even the most generous stated tolerance of three
percent), but the code returns 10 — the minimum-absolute bare token, which
here is the rate itself. -/
theorem claim_C2_counterexample :
    extract_retencion_iva_from_retenciones_table cexRetText = 10 ∧
    retBlock cexRetText = some cexRetBlock ∧
    dollarVals cexRetBlock = [] ∧
    (numToks cexRetBlock).filterMap parseNumL = [10, 50, 200] ∧
    ¬ (|(200 : ℚ) - 50 * (10 / 100)| ≤ 3 / 100 * |(50 : ℚ) * (10 / 100)|) ∧
    ¬ (|(50 : ℚ) - 200 * (10 / 100)| ≤ 3 / 100 * |(200 : ℚ) * (10 / 100)|) ∧
    ¬ (|(200 : ℚ) - 50 * (10 / 100)| ≤ 3 / 100 * 200) ∧
    ¬ (|(50 : ℚ) - 200 * (10 / 100)| ≤ 3 / 100 * 50) ∧
    (10 : ℚ) ≠ 0 := by
  refine ⟨by decide, by decide, by decide, by decide,
    by norm_num, by norm_num, by norm_num, by norm_num, by norm_num⟩

theorem retBlock_inv {t : String} {b : List Char} (hb : retBlock t = some b) :
    ∃ sec i, retSection t.data = some sec ∧ retAnchorIdx (splitLines sec) = some i ∧
      mkBlock (splitLines sec) i = b := by
  rcases h1 : retSection t.data with _ | sec
  · rw [retBlock, h1] at hb; simp at hb
  · rcases h2 : retAnchorIdx (splitLines sec) with _ | i
    · rw [retBlock, h1] at hb
      simp only [Option.some_bind] at hb
      rw [h2] at hb
      simp at hb
    · rw [retBlock, h1] at hb
      simp only [Option.some_bind] at hb
      rw [h2] at hb
      simp only [Option.map_some'] at hb
      injection hb with hbeq
      exact ⟨sec, i, rfl, h2, hbeq⟩

/-- Claim C2 amended: the resolver performs no tolerance-based pairing of
base and retained amounts.  When the anchor block holds currency-prefixed
candidates it returns the one of largest absolute value (the spec example
still yields 479167.92); when it holds none, it returns the bare numeric
candidate of smallest absolute value — which can be the rate token itself;
when the block holds no usable candidate at all, or no anchor line exists,
it falls back to the labeled AFIP total, and to 0 when even the
RETENCIONES section is absent. -/
theorem claim_C2_amended :
    extract_retencion_iva_from_retenciones_table exRetText = 47916792 / 100 ∧
    (∀ (t : String) (b : List Char) (d : ℚ) (ds : List ℚ),
      retBlock t = some b → dollarVals b = d :: ds →
      extract_retencion_iva_from_retenciones_table t ∈ dollarVals b ∧
      ∀ v ∈ dollarVals b, |v| ≤ |extract_retencion_iva_from_retenciones_table t|) ∧
    (∀ (t : String) (b : List Char) (n : ℚ) (ns : List ℚ),
      retBlock t = some b → dollarVals b = [] → bareVals b = n :: ns →
      extract_retencion_iva_from_retenciones_table t ∈ bareVals b ∧
      ∀ v ∈ bareVals b, |extract_retencion_iva_from_retenciones_table t| ≤ |v|) ∧
    (∀ (t : String) (b : List Char),
      retBlock t = some b → dollarVals b = [] → bareVals b = [] →
      extract_retencion_iva_from_retenciones_table t = (retAfipOf t).getD 0) ∧
    (∀ (t : String) (sec : List Char),
      retSection t.data = some sec → retAnchorIdx (splitLines sec) = none →
      extract_retencion_iva_from_retenciones_table t = (retTotalAfip sec).getD 0) ∧
    (∀ t : String, retSection t.data = none →
      extract_retencion_iva_from_retenciones_table t = 0) := by
  refine ⟨?_, ?_, ?_, ?_, ?_, ?_⟩
  · rw [show (47916792 / 100 : ℚ) = mkRat 47916792 100 by rw [Rat.mkRat_eq_div]; norm_num]
    decide
  · intro t b d ds hb hd
    obtain ⟨sec, i, h1, h2, hbeq⟩ := retBlock_inv hb
    subst hbeq
    have hext : extract_retencion_iva_from_retenciones_table t = firstMaxAbs d ds := by
      simp only [extract_retencion_iva_from_retenciones_table, h1, h2, hd]
    rw [hext, hd]
    exact firstMaxAbs_spec d ds
  · intro t b n ns hb hd hn
    obtain ⟨sec, i, h1, h2, hbeq⟩ := retBlock_inv hb
    subst hbeq
    have hext : extract_retencion_iva_from_retenciones_table t = firstMinAbs n ns := by
      simp only [extract_retencion_iva_from_retenciones_table, h1, h2, hd, hn]
    rw [hext, hn]
    exact firstMinAbs_spec n ns
  · intro t b hb hd hn
    obtain ⟨sec, i, h1, h2, hbeq⟩ := retBlock_inv hb
    subst hbeq
    have hext : extract_retencion_iva_from_retenciones_table t
        = (retTotalAfip sec).getD 0 := by
      simp only [extract_retencion_iva_from_retenciones_table, h1, h2, hd, hn]
    rw [hext, retAfipOf, h1]
    rfl
  · intro t sec h1 h2
    simp only [extract_retencion_iva_from_retenciones_table, h1, h2]
  · intro t h1
    simp only [extract_retencion_iva_from_retenciones_table, h1]

/-- Witness for the amended claim C2, one concrete document per branch:
the spec example takes the maximal currency-prefixed candidate, the
counterexample text takes the minimal bare candidate, and a block with no
usable candidate falls back to the labeled AFIP total. -/
theorem claim_C2_amended_witness :
    (extract_retencion_iva_from_retenciones_table exRetText ∈ dollarVals exRetBlock ∧
      ∀ v ∈ dollarVals exRetBlock,
        |v| ≤ |extract_retencion_iva_from_retenciones_table exRetText|) ∧
    (extract_retencion_iva_from_retenciones_table cexRetText ∈ bareVals cexRetBlock ∧
      ∀ v ∈ bareVals cexRetBlock,
        |extract_retencion_iva_from_retenciones_table cexRetText| ≤ |v|) ∧
    extract_retencion_iva_from_retenciones_table afipFallbackText
      = (retAfipOf afipFallbackText).getD 0 :=
  ⟨claim_C2_amended.2.1 exRetText exRetBlock (mkRat 47916792 100) [] (by decide) (by decide),
   claim_C2_amended.2.2.1 cexRetText cexRetBlock 10 [50, 200]
     (by decide) (by decide) (by decide),
   claim_C2_amended.2.2.2.1 afipFallbackText afipFallbackBlock
     (by decide) (by decide) (by decide)⟩

/-- Claim C4 counterexample: with the visible header tokens swapped
(VENDEDOR rendered in the left column), the left block names the seller
and the right block the buyer, the swap rule of the spec would exchange
the blocks, but the code still feeds the left block to the buyer party —
no swap happens. -/
theorem claim_C4_counterexample :
    containsSub "VENDEDOR".data (pyNorm (partiesBlocks wordsSwapped 600).1.data) = true ∧
    containsSub "COMPRADOR".data (pyNorm (partiesBlocks wordsSwapped 600).2.data) = true ∧
    containsSub "COMPRADOR".data (pyNorm (partiesBlocks wordsSwapped 600).1.data) = false ∧
    containsSub "VENDEDOR".data (pyNorm (partiesBlocks wordsSwapped 600).2.data) = false ∧
    swapCheck_specModel (partiesBlocks wordsSwapped 600)
      = ((partiesBlocks wordsSwapped 600).2, (partiesBlocks wordsSwapped 600).1) ∧
    compradorBlockOf wordsSwapped 600 = (partiesBlocks wordsSwapped 600).1 ∧
    compradorBlockOf wordsSwapped 600 = "VENDEDOR\nBETA" ∧
    (partiesBlocks wordsSwapped 600).1 ≠ (partiesBlocks wordsSwapped 600).2 := by
  refine ⟨by decide, by decide, by decide, by decide, by decide, rfl, by decide, by decide⟩

/-- Claim C4 amended: the splitter partitions words positionally — with
COMPRADOR at x 0 and VENDEDOR at x 300 the split sits at 150, the word at
x 10 lands in the left (buyer) block and the word at x 310 in the right
(seller) block — and there is no post-hoc swap check: the left block
always feeds the buyer and the right block the seller, whatever the header
tokens say. -/
theorem claim_C4_amended :
    xSplitOf wordsOk 600 = 150 ∧
    partiesBlocks wordsOk 600 = ("COMPRADOR\nLEFTY", "VENDEDOR\nRIGHTY") ∧
    compradorBlockOf wordsOk 600 = "COMPRADOR\nLEFTY" ∧
    vendedorBlockOf wordsOk 600 = "VENDEDOR\nRIGHTY" ∧
    compradorBlockOf wordsSwapped 600 = "VENDEDOR\nBETA" ∧
    vendedorBlockOf wordsSwapped 600 = "COMPRADOR\nALFA" ∧
    (∀ (ws : List PWord) (width : ℚ),
      compradorBlockOf ws width = (partiesBlocks ws width).1 ∧
      vendedorBlockOf ws width = (partiesBlocks ws width).2) := by
  refine ⟨by decide, by decide, by decide, by decide, by decide, by decide,
    fun ws width => ⟨rfl, rfl⟩⟩

/-- Claim C5: the adjustment-path extractor splits the parsed tokens of
the data row positionally — tokens one to three are kilos, price and
subtotal; with six or more tokens the fourth, fifth and sixth are rate,
VAT amount and total; with exactly five the rate defaults to 10.5; with
fewer than five the path yields none. -/
theorem claim_C5 :
    (∀ t : String, ajusteVals t = none → extract_operation_from_ajuste_credito t = none) ∧
    (∀ (t : String) (vals : List ℚ), ajusteVals t = some vals → vals.length < 5 →
      extract_operation_from_ajuste_credito t = none) ∧
    (∀ (t : String) (vals : List ℚ), ajusteVals t = some vals → vals.length = 5 →
      extract_operation_from_ajuste_credito t =
        some (vals.getD 0 0, vals.getD 1 0, vals.getD 2 0,
              21 / 2, vals.getD 3 0, vals.getD 4 0)) ∧
    (∀ (t : String) (vals : List ℚ), ajusteVals t = some vals → 6 ≤ vals.length →
      extract_operation_from_ajuste_credito t =
        some (vals.getD 0 0, vals.getD 1 0, vals.getD 2 0,
              vals.getD 3 0, vals.getD 4 0, vals.getD 5 0)) := by
  have hten : (mkRat 21 2 : ℚ) = 21 / 2 := by rw [Rat.mkRat_eq_div]; norm_num
  refine ⟨?_, ?_, ?_, ?_⟩
  · intro t h
    simp only [extract_operation_from_ajuste_credito, h]
  · intro t vals h hlen
    simp only [extract_operation_from_ajuste_credito, h]
    rw [if_pos hlen]
  · intro t vals h hlen
    simp only [extract_operation_from_ajuste_credito, h]
    rw [if_neg (by omega), if_neg (by omega), hten]
  · intro t vals h hlen
    simp only [extract_operation_from_ajuste_credito, h]
    rw [if_neg (by omega), if_pos hlen]

/-- Witness for claim C5: a document whose data row carries exactly five
tokens takes the default rate 10.5. -/
theorem claim_C5_witness :
    extract_operation_from_ajuste_credito ajusteText5
      = some (100, 2, 300, 21 / 2, mkRat 63 2, mkRat 663 2) := by
  have h := claim_C5.2.2.1 ajusteText5 [100, 2, 300, mkRat 63 2, mkRat 663 2]
    (by decide) (by decide)
  exact h.trans rfl

/-! ## Lemma chain for the nonnegativity of the standard path -/

theorem mem_stripB {a : Char} {l : List Char} (h : a ∈ stripB l) : a ∈ l := by
  unfold stripB rstrip lstrip at h
  have h2 := List.mem_reverse.mp h
  have h3 := (List.dropWhile_sublist _).subset h2
  have h4 := List.mem_reverse.mp h3
  exact (List.dropWhile_sublist _).subset h4

theorem findSome_mem {α β : Type} (f : α → Option β) :
    ∀ (l : List α) (b : β), l.findSome? f = some b → ∃ a ∈ l, f a = some b := by
  intro l
  induction l with
  | nil => intro b h; simp [List.findSome?] at h
  | cons x xs ih =>
    intro b h
    cases hfx : f x with
    | some y =>
      simp only [List.findSome?_cons, hfx] at h
      exact ⟨x, List.mem_cons_self x xs, hfx.trans h⟩
    | none =>
      simp only [List.findSome?_cons, hfx] at h
      obtain ⟨a, ha, hfa⟩ := ih b h
      exact ⟨a, List.mem_cons_of_mem x ha, hfa⟩

theorem head?_mem {α : Type} {l : List α} {a : α} (h : l.head? = some a) : a ∈ l := by
  cases l <;> simp_all

theorem numCands_no_minus {s : List Char} {p : List Char × List Char}
    (hp : p ∈ numCands s) : '-' ∉ p.1 := by
  cases s with
  | nil => simp [numCands] at hp
  | cons c cs =>
    simp only [numCands] at hp
    by_cases hc : c.isDigit = true
    · rw [if_pos hc] at hp
      obtain ⟨i, _, hfeq⟩ := List.mem_map.mp hp
      intro hm
      rw [← hfeq] at hm
      rcases List.mem_cons.mp hm with h | h
      · rw [← h] at hc; exact absurd hc (by decide)
      · have h2 := List.take_subset _ _ h
        have h3 := List.mem_takeWhile_imp h2
        exact absurd h3 (by decide)
    · rw [if_neg hc] at hp
      simp at hp

theorem stdOpAt_no_minus {s : List Char} {g1 g2 g3 g4 g5 g6 : List Char}
    (h : stdOpAt s = some (g1, g2, g3, g4, g5, g6)) :
    '-' ∉ g1 ∧ '-' ∉ g2 ∧ '-' ∉ g3 ∧ '-' ∉ g4 ∧ '-' ∉ g5 ∧ '-' ∉ g6 := by
  unfold stdOpAt at h
  obtain ⟨p1, hp1, h1⟩ := findSome_mem _ _ _ h
  split at h1
  · split_ifs at h1
    · obtain ⟨p2, hp2, h2⟩ := findSome_mem _ _ _ h1
      obtain ⟨p3, hp3, h3⟩ := findSome_mem _ _ _ h2
      obtain ⟨p4, hp4, h4⟩ := findSome_mem _ _ _ h3
      obtain ⟨p5, hp5, h5⟩ := findSome_mem _ _ _ h4
      split at h5
      next p6 hh =>
        simp only [Option.some.injEq, Prod.mk.injEq] at h5
        obtain ⟨e1, e2, e3, e4, e5, e6⟩ := h5
        subst e1; subst e2; subst e3; subst e4; subst e5; subst e6
        exact ⟨numCands_no_minus hp1, numCands_no_minus hp2, numCands_no_minus hp3,
          numCands_no_minus hp4, numCands_no_minus hp5, numCands_no_minus (head?_mem hh)⟩
      next hh => exact Option.noConfusion h5
  · exact Option.noConfusion h1

theorem stdOpSearch_no_minus :
    ∀ (s : List Char) {g1 g2 g3 g4 g5 g6 : List Char},
      stdOpSearch s = some (g1, g2, g3, g4, g5, g6) →
      '-' ∉ g1 ∧ '-' ∉ g2 ∧ '-' ∉ g3 ∧ '-' ∉ g4 ∧ '-' ∉ g5 ∧ '-' ∉ g6 := by
  intro s
  induction s with
  | nil => intro g1 g2 g3 g4 g5 g6 h; simp [stdOpSearch] at h
  | cons c cs ih =>
    intro g1 g2 g3 g4 g5 g6 h
    rw [stdOpSearch] at h
    by_cases hc : c = '\n'
    · rw [if_pos hc] at h
      cases hA : stdOpAt cs with
      | some gs =>
        rw [hA] at h
        simp only [Option.some.injEq] at h
        subst h
        exact stdOpAt_no_minus hA
      | none =>
        rw [hA] at h
        exact ih h
    · rw [if_neg hc] at h
      exact ih h

theorem mkRat_nonneg_of_nonneg {n : Int} (hn : 0 ≤ n) (d : Nat) : 0 ≤ mkRat n d := by
  rw [Rat.mkRat_eq_div]
  have hn2 : (0 : ℚ) ≤ (n : ℚ) := by exact_mod_cast hn
  positivity

theorem pyFloatCore_nonneg {l : List Char} {q : ℚ} (h : pyFloatCore l = some q) : 0 ≤ q := by
  simp only [pyFloatCore] at h
  split at h
  · split_ifs at h
    injection h with hq
    subst hq
    exact mkRat_nonneg_of_nonneg (by positivity) _
  · split_ifs at h
    injection h with hq
    subst hq
    exact mkRat_nonneg_of_nonneg (by positivity) _

theorem pyFloat_getD_nonneg {l : List Char} (hl : '-' ∉ l) : 0 ≤ (pyFloat l).getD 0 := by
  cases l with
  | nil =>
    simp only [pyFloat]
    cases hq : pyFloatCore [] with
    | none => simp [hq]
    | some q => simp only [hq, Option.getD_some]; exact pyFloatCore_nonneg hq
  | cons c cs =>
    have hc : ¬ c = '-' := fun e => hl (List.mem_cons.mpr (Or.inl e.symm))
    simp only [pyFloat]
    rw [if_neg hc]
    cases hq : pyFloatCore (c :: cs) with
    | none => simp [hq]
    | some q => simp only [hq, Option.getD_some]; exact pyFloatCore_nonneg hq

theorem parseNumL_getD_nonneg {raw : List Char} (h : '-' ∉ raw) :
    0 ≤ (parseNumL raw).getD 0 := by
  have hs : '-' ∉ cleanedNum raw := fun hm => h (mem_stripB (List.mem_of_mem_filter hm))
  have hd1 : '-' ∉ dropChar ',' (cleanedNum raw) := fun hm => hs (List.mem_of_mem_filter hm)
  have hd2 : '-' ∉ (dropChar '.' (cleanedNum raw)).map commaToDot := by
    intro hm
    obtain ⟨c, hcmem, hcd⟩ := List.mem_map.mp hm
    have hceq : c = '-' := by
      by_cases h' : c = ','
      · rw [h', commaToDot] at hcd; simp at hcd
      · have hne : ¬ ((c == ',') = true) := by simp [h']
        rw [commaToDot, if_neg hne] at hcd
        exact hcd
    exact hs (List.mem_of_mem_filter (hceq ▸ hcmem))
  simp only [parseNumL]
  split_ifs
  all_goals first
  | exact pyFloat_getD_nonneg hd1
  | exact pyFloat_getD_nonneg hd2
  | simp

/-- Claim C10: the standard operation-line extractor returns six
nonnegative values on every input — its pattern admits no minus sign and
missing matches coalesce to zero — so negative operation fields can only
come from the credit-note sign normalizer. -/
theorem claim_C10 (t : String) :
    0 ≤ (extract_operation_numbers_standard t).1 ∧
    0 ≤ (extract_operation_numbers_standard t).2.1 ∧
    0 ≤ (extract_operation_numbers_standard t).2.2.1 ∧
    0 ≤ (extract_operation_numbers_standard t).2.2.2.1 ∧
    0 ≤ (extract_operation_numbers_standard t).2.2.2.2.1 ∧
    0 ≤ (extract_operation_numbers_standard t).2.2.2.2.2 := by
  unfold extract_operation_numbers_standard
  cases h : stdOpSearch t.data with
  | none => simp
  | some gs =>
    obtain ⟨g1, g2, g3, g4, g5, g6⟩ := gs
    obtain ⟨n1, n2, n3, n4, n5, n6⟩ := stdOpSearch_no_minus t.data h
    exact ⟨parseNumL_getD_nonneg n1, parseNumL_getD_nonneg n2, parseNumL_getD_nonneg n3,
      parseNumL_getD_nonneg n4, parseNumL_getD_nonneg n5, parseNumL_getD_nonneg n6⟩

end LiqParser
